import Mathlib

/-!
Formal model of the fragment.com username checker (`main.go` of the
`fragment_cheker/go_fragmentChacker` repository).

The development shallowly embeds the parts of the program that the
verified properties are about:

* the pure classification pipeline of `checkUsername` (normalization,
  final-URL comparison, status-element matching, result-line formatting);
* the construction of the HTTP client in `NewUsernameChecker`
  (timeout, optional proxy transport from the first proxy string);
* the dispatcher loop `Run` together with the worker goroutines, the
  semaphore, the wait group, the stop channel and the shared
  `results`/`processed` state, as a small-step transition system on an
  explicit run state;
* `GetProgress`, with Go float64 division modelled exactly on the cases
  the program can reach (rational values, with IEEE division by zero
  producing NaN or infinities).
-/

set_option autoImplicit false

/-- Character-level model of Go `strings.TrimSpace`: whitespace is
removed from both ends.  `Char.isWhitespace` covers the ASCII
whitespace the inputs of this program contain. -/
def goTrimSpace (s : String) : String :=
  String.mk (((s.data.dropWhile Char.isWhitespace).reverse.dropWhile Char.isWhitespace).reverse)

/-- Character-level model of Go `strings.ToLower`. -/
def goToLower (s : String) : String :=
  String.mk (s.data.map Char.toLower)

/-- Normalization performed at the top of `checkUsername`:
`strings.TrimSpace(strings.TrimPrefix(username, "@"))`.  Go `TrimPrefix`
with the one-character marker removes a leading `@` when present. -/
def normalizeHandle (username : String) : String :=
  goTrimSpace (match username.data with
    | '@' :: rest => String.mk rest
    | _ => username)

/-- Character-level model of Go `strings.Title`: every letter that
begins a word (first character, or preceded by a character that is
neither letter nor digit) is mapped to upper case.  The program only
applies it to the single lower-case words matched by the status switch
(`sold`, `available`, `taken`), where this is exact. -/
def goTitleAux : Bool → List Char → List Char
  | _, [] => []
  | wordStart, c :: cs =>
      (if wordStart then c.toUpper else c) :: goTitleAux (!(c.isAlpha || c.isDigit)) cs

/-- Go `strings.Title` on a string, via `goTitleAux`. -/
def goTitle (s : String) : String :=
  String.mk (goTitleAux true s.data)

/-- Tagged classification result for one handle (spec section 3,
"Outcome").  The source computes the same information as formatted
strings; the constructors carry exactly the data the corresponding
format verbs carry. -/
inductive Outcome where
  | free
  | sold
  | available
  | taken
  | unknownStatus (raw : String)
  | requestError (err : String)
  | parseError (err : String)
  | notFound
deriving DecidableEq

/-- Result of parsing the response body with goquery.  `malformed` is
the error branch of `goquery.NewDocumentFromReader`; `page statusText`
is a parsed document whose `span.tm-section-header-status` selection is
empty (`none`) or has the given concatenated text (`some`). -/
inductive HtmlBody where
  | malformed (err : String)
  | page (statusText : Option String)
deriving DecidableEq

/-- Result of `uc.client.Do(req)`: either a transport error (timeout,
connection failure) or a response carrying the final redirected URL
(`resp.Request.URL.String()`) and the body. -/
inductive FetchResponse where
  | reqError (err : String)
  | ok (finalURL : String) (body : HtmlBody)
deriving DecidableEq

/-- URL the checker compares the final URL against:
`fmt.Sprintf("https://fragment.com/?query=%s", username)`. -/
def queryURL (handle : String) : String :=
  "https://fragment.com/?query=" ++ handle

/-- URL the request is sent to:
`fmt.Sprintf("https://fragment.com/username/%s", username)`. -/
def requestURL (handle : String) : String :=
  "https://fragment.com/username/" ++ handle

/-- Classification logic of `checkUsername` after a successful request
(main.go lines 210 to 249), on an already-normalized handle: final-URL
equality decides Free before the body is parsed; then the parse-error
branch, the missing-status branch, and the three-literal switch on the
lower-cased trimmed status text. -/
def classify (handle finalURL : String) (body : HtmlBody) : Outcome :=
  if finalURL = queryURL handle then .free
  else
    match body with
    | .malformed e => .parseError e
    | .page none => .notFound
    | .page (some txt) =>
        let status := goToLower (goTrimSpace txt)
        if status = "sold" then .sold
        else if status = "available" then .available
        else if status = "taken" then .taken
        else .unknownStatus status

/-- Result line written for one handle and outcome; each branch is the
corresponding `fmt.Sprintf` of `checkUsername`.  In the three-literal
branch the source formats `strings.Title(status)` where `status` is the
matched literal, rendered here as `goTitle` of that literal. -/
def renderLine (username : String) : Outcome → String
  | .requestError e => "@" ++ username ++ " | Error: " ++ e ++ "\n"
  | .free => "@" ++ username ++ " | Free\n"
  | .parseError e => "@" ++ username ++ " | Error parsing HTML: " ++ e ++ "\n"
  | .notFound => "@" ++ username ++ " | Status not found\n"
  | .sold => "@" ++ username ++ " | " ++ goTitle "sold" ++ "\n"
  | .available => "@" ++ username ++ " | " ++ goTitle "available" ++ "\n"
  | .taken => "@" ++ username ++ " | " ++ goTitle "taken" ++ "\n"
  | .unknownStatus raw => "@" ++ username ++ " | Unknown status (" ++ raw ++ ")\n"

/-- Observable effect of one `checkUsername` call on the result list:
the single line recorded via `logResult` for the given raw username and
network response.  The request-error branch happens before
classification (main.go lines 201 to 207); afterwards the response is
classified and formatted. -/
def checkUsernameLine (username : String) (resp : FetchResponse) : String :=
  let u := normalizeHandle username
  match resp with
  | .reqError e => renderLine u (.requestError e)
  | .ok finalURL body => renderLine u (classify u finalURL body)

/-- Transcribed from the spec wording (section 4.2, step 4): the closed
set of known literal status values. -/
def specStatusSet : List String :=
  ["sold", "available", "taken"]

/-- Transcribed from the spec wording: the outcome named by a member of
the closed status set. -/
def specStatusOutcome (t : String) : Outcome :=
  if t = "sold" then .sold
  else if t = "available" then .available
  else .taken

/-- Status-extractor contract transcribed from the spec wording
(section 4.2, `classify(finalURL, body, handle)`): Free on exact
final-URL match, ParseError on parse failure, NotFound when the status
element is absent, and for a present element the lower-cased trimmed
text is looked up in the closed literal set with an explicit
unknown-fallback.  Written to be compared with `classify`. -/
def specClassify (finalURL : String) (body : HtmlBody) (handle : String) : Outcome :=
  if finalURL = queryURL handle then .free
  else
    match body with
    | .malformed e => .parseError e
    | .page none => .notFound
    | .page (some raw) =>
        let t := goToLower (goTrimSpace raw)
        if t ∈ specStatusSet then specStatusOutcome t
        else .unknownStatus t

/-- Go float64 values as far as this program can observe them: exact
rational values plus the IEEE special values.  Rounding of inexact
quotients is not modelled; no theorem below depends on an inexact
quotient, only on the zero-denominator cases, which IEEE 754 defines
exactly (0/0 is NaN). -/
inductive GoFloat where
  | val (q : ℚ)
  | posInf
  | negInf
  | nan
deriving DecidableEq

/-- IEEE 754 division on `GoFloat`: a zero denominator gives NaN for a
zero numerator and a signed infinity otherwise; NaN propagates.  The
sign of zero results is not tracked. -/
def goDiv : GoFloat → GoFloat → GoFloat
  | .val a, .val b =>
      if b = 0 then
        if a = 0 then .nan else if 0 < a then .posInf else .negInf
      else .val (a / b)
  | .nan, _ => .nan
  | _, .nan => .nan
  | .posInf, .posInf => .nan
  | .posInf, .negInf => .nan
  | .negInf, .posInf => .nan
  | .negInf, .negInf => .nan
  | .posInf, .val b => if 0 ≤ b then .posInf else .negInf
  | .negInf, .val b => if 0 ≤ b then .negInf else .posInf
  | .val _, .posInf => .val 0
  | .val _, .negInf => .val 0

/-- IEEE 754 multiplication on `GoFloat`, to the same precision as
`goDiv`: NaN propagates, infinity times zero is NaN. -/
def goMul : GoFloat → GoFloat → GoFloat
  | .val a, .val b => .val (a * b)
  | .nan, _ => .nan
  | _, .nan => .nan
  | .posInf, .posInf => .posInf
  | .posInf, .negInf => .negInf
  | .negInf, .posInf => .negInf
  | .negInf, .negInf => .posInf
  | .posInf, .val b => if b = 0 then .nan else if 0 < b then .posInf else .negInf
  | .negInf, .val b => if b = 0 then .nan else if 0 < b then .negInf else .posInf
  | .val a, .posInf => if a = 0 then .nan else if 0 < a then .posInf else .negInf
  | .val a, .negInf => if a = 0 then .nan else if 0 < a then .negInf else .posInf

/-- Model of the Go `http.Transport` installed when a proxy parses:
proxy URL, plus the dialer timeout and keep-alive (both 10 seconds)
from `NewUsernameChecker`. -/
structure ProxyTransport where
  proxyURL : String
  dialTimeoutSeconds : Nat
  keepAliveSeconds : Nat
deriving DecidableEq

/-- Model of the `http.Client` built in `NewUsernameChecker`: the
10-second client timeout, and either the default direct transport
(`none`) or a proxy transport. -/
structure GoHTTPClient where
  timeoutSeconds : Nat
  transport : Option ProxyTransport
deriving DecidableEq

/-- Fields of the `UsernameChecker` struct fixed at construction time
(the mutable fields `results`, `processed`, `stopChan` and the wait
group live in `RunState` below). -/
structure UsernameChecker where
  usernames : List String
  threads : Nat
  proxies : List String
  outputFile : String
  client : GoHTTPClient
deriving DecidableEq

/-- Construction of the checker (main.go lines 133 to 158).  URL
parsing is performed by the Go standard library, so it is passed in as
an oracle `parseURL` returning `none` exactly when `url.Parse` returns
an error.  The client starts with only the 10-second timeout; when the
proxy list is non-empty its first element is parsed, and only a
successful parse installs a proxy transport — a parse error leaves the
direct client and the function still returns a checker (its Go
signature has no error result). -/
def NewUsernameChecker (parseURL : String → Option String)
    (usernames : List String) (threads : Nat) (proxies : List String)
    (outputFile : String) : UsernameChecker :=
  let client : GoHTTPClient :=
    match proxies with
    | [] => { timeoutSeconds := 10, transport := none }
    | p :: _ =>
        match parseURL p with
        | some u =>
            { timeoutSeconds := 10,
              transport := some { proxyURL := u, dialTimeoutSeconds := 10, keepAliveSeconds := 10 } }
        | none => { timeoutSeconds := 10, transport := none }
  { usernames := usernames, threads := threads, proxies := proxies,
    outputFile := outputFile, client := client }

/-- State of one execution of `Run` together with its worker
goroutines and the shared mutable fields of `UsernameChecker`.

* `idx` is the position of the next list element the `for range` loop
  will examine;
* `cancelled` is whether `stopChan` has been closed;
* `pending` is the index the loop has committed to dispatching (the
  `select` already chose its `default` branch) but for which the
  semaphore send has not completed yet;
* `inFlight` holds the raw usernames of dispatched workers that have
  not finished (each holds one semaphore slot and one wait-group unit);
* `dispatched` lists, in order, the indices for which a worker
  goroutine was started;
* `results` and `processed` are the mutex-guarded shared fields;
* `returned` is whether `Run` has returned. -/
structure RunState where
  usernames : List String
  threads : Nat
  idx : Nat
  cancelled : Bool
  pending : Option Nat
  inFlight : List String
  dispatched : List Nat
  results : List String
  processed : Nat
  returned : Bool
deriving DecidableEq

/-- State at the start of `Run` for a checker with the given username
list and thread count. -/
def initRun (usernames : List String) (threads : Nat) : RunState :=
  { usernames := usernames, threads := threads, idx := 0,
    cancelled := false, pending := none, inFlight := [],
    dispatched := [], results := [], processed := 0, returned := false }

/-- Small-step transition relation for `Run` (main.go lines 160 to 182)
and its workers (lines 172 to 176 and `checkUsername`).

* `cancel`: the signal goroutine closes `stopChan` (one-shot).
* `selectStop`: the loop body runs the `select` with `stopChan` ready:
  `Run` logs and returns immediately, without waiting on the wait
  group.
* `selectDefault`: the `select` takes its `default` branch with
  `stopChan` not ready, committing the current element; the loop then
  blocks on the semaphore send.
* `dispatch`: the semaphore send completes (a slot is free), one unit
  is added to the wait group and the worker goroutine starts.
* `finish`: the loop has exhausted the list and `uc.wg.Wait()` returns
  because no worker is outstanding; `Run` returns.
* `complete`: one in-flight worker finishes `checkUsername` for some
  network response, appending exactly one line under `resultsMu` and
  incrementing `processed` under `processedMu`, then releases its
  semaphore slot and wait-group unit. -/
inductive RunStep : RunState → RunState → Prop where
  | cancel (s : RunState) (h : s.cancelled = false) :
      RunStep s { s with cancelled := true }
  | selectStop (s : RunState) (h1 : s.returned = false) (h2 : s.pending = none)
      (h3 : s.idx < s.usernames.length) (h4 : s.cancelled = true) :
      RunStep s { s with returned := true }
  | selectDefault (s : RunState) (h1 : s.returned = false) (h2 : s.pending = none)
      (h3 : s.idx < s.usernames.length) (h4 : s.cancelled = false) :
      RunStep s { s with pending := some s.idx, idx := s.idx + 1 }
  | dispatch (s : RunState) (j : Nat) (u : String) (h1 : s.returned = false)
      (h2 : s.pending = some j) (h3 : s.inFlight.length < s.threads)
      (h4 : s.usernames[j]? = some u) :
      RunStep s { s with pending := none, inFlight := u :: s.inFlight,
                         dispatched := s.dispatched ++ [j] }
  | finish (s : RunState) (h1 : s.returned = false) (h2 : s.pending = none)
      (h3 : s.usernames.length ≤ s.idx) (h4 : s.inFlight = []) :
      RunStep s { s with returned := true }
  | complete (s : RunState) (u : String) (resp : FetchResponse) (h : u ∈ s.inFlight) :
      RunStep s { s with inFlight := s.inFlight.erase u,
                         results := s.results ++ [checkUsernameLine u resp],
                         processed := s.processed + 1 }

/-- Reflexive-transitive closure of `RunStep`: the states an execution
can pass through. -/
inductive Reaches : RunState → RunState → Prop where
  | refl (s : RunState) : Reaches s s
  | step {s t u : RunState} : Reaches s t → RunStep t u → Reaches s u

/-- Number of loop iterations that are committed but not yet
dispatched (zero or one). -/
def pendCount : Option Nat → Nat
  | none => 0
  | some _ => 1

/-- Invariant tying together the counters of a run started from
`initRun us n`. -/
structure RunInv (us : List String) (n : Nat) (s : RunState) : Prop where
  husers : s.usernames = us
  hthreads : s.threads = n
  hidx : s.idx ≤ us.length
  hcount : s.processed + s.inFlight.length + pendCount s.pending = s.idx
  hresults : s.results.length = s.processed
  hcap : s.inFlight.length ≤ n
  hret : s.returned = true →
    s.cancelled = true ∨ (s.pending = none ∧ s.inFlight = [] ∧ s.idx = us.length)
  hdisp : s.dispatched.length = s.processed + s.inFlight.length

/-- Model of `GetProgress` (main.go lines 280 to 287) as a state
transformer: it reads `processed` and `len(usernames)` under the mutex,
computes `(float64(processed) / float64(total)) * 100` with no guard on
a zero total, and leaves the state unchanged. -/
def GetProgress (s : RunState) : (Nat × Nat × GoFloat) × RunState :=
  ((s.processed, s.usernames.length,
      goMul (goDiv (GoFloat.val (s.processed : ℚ)) (GoFloat.val (s.usernames.length : ℚ)))
        (GoFloat.val 100)),
    s)

/-- Reachability is transitive. -/
theorem reaches_trans {s t u : RunState} (h1 : Reaches s t) (h2 : Reaches t u) :
    Reaches s u := by
  induction h2 with
  | refl => exact h1
  | step _ hst ih => exact Reaches.step ih hst

/-- The run invariant holds in the initial state. -/
theorem runInv_init (us : List String) (n : Nat) : RunInv us n (initRun us n) := by
  refine ⟨rfl, rfl, ?_, rfl, rfl, ?_, ?_, rfl⟩
  · exact Nat.zero_le _
  · exact Nat.zero_le _
  · intro hr
    exact absurd hr (by simp [initRun])

/-- Every step of the transition system preserves the run invariant. -/
theorem runInv_step {us : List String} {n : Nat} {s t : RunState}
    (hs : RunInv us n s) (hstep : RunStep s t) : RunInv us n t := by
  obtain ⟨h1, h2, h3, h4, h5, h6, h7, h8⟩ := hs
  cases hstep with
  | cancel hc =>
      exact ⟨h1, h2, h3, h4, h5, h6, fun _ => Or.inl rfl, h8⟩
  | selectStop g1 g2 g3 g4 =>
      exact ⟨h1, h2, h3, h4, h5, h6, fun _ => Or.inl g4, h8⟩
  | selectDefault g1 g2 g3 g4 =>
      rw [g2] at h4
      simp only [pendCount] at h4
      refine ⟨h1, h2, ?_, ?_, h5, h6, ?_, h8⟩
      · show s.idx + 1 ≤ us.length
        rw [h1] at g3
        omega
      · show s.processed + s.inFlight.length + pendCount (some s.idx) = s.idx + 1
        simp only [pendCount]
        omega
      · intro hr
        exact Bool.noConfusion (g1.symm.trans (hr : s.returned = true))
  | dispatch j u g1 g2 g3 g4 =>
      rw [g2] at h4
      simp only [pendCount] at h4
      refine ⟨h1, h2, h3, ?_, h5, ?_, ?_, ?_⟩
      · show s.processed + (u :: s.inFlight).length + pendCount none = s.idx
        simp only [pendCount, List.length_cons]
        omega
      · show (u :: s.inFlight).length ≤ n
        rw [h2] at g3
        simp only [List.length_cons]
        omega
      · intro hr
        exact Bool.noConfusion (g1.symm.trans (hr : s.returned = true))
      · show (s.dispatched ++ [j]).length = s.processed + (u :: s.inFlight).length
        simp only [List.length_append, List.length_cons, List.length_nil]
        omega
  | finish g1 g2 g3 g4 =>
      refine ⟨h1, h2, h3, h4, h5, h6, ?_, h8⟩
      · intro _
        refine Or.inr ⟨g2, g4, ?_⟩
        show s.idx = us.length
        rw [h1] at g3
        omega
  | complete u resp hmem =>
      have hlen : (s.inFlight.erase u).length = s.inFlight.length - 1 :=
        List.length_erase_of_mem hmem
      have hpos : 0 < s.inFlight.length := List.length_pos_of_mem hmem
      refine ⟨h1, h2, h3, ?_, ?_, ?_, ?_, ?_⟩
      · show s.processed + 1 + (s.inFlight.erase u).length + pendCount s.pending = s.idx
        omega
      · show (s.results ++ [checkUsernameLine u resp]).length = s.processed + 1
        simp only [List.length_append, List.length_singleton]
        omega
      · show (s.inFlight.erase u).length ≤ n
        exact le_trans (List.Sublist.length_le (List.erase_sublist u s.inFlight)) h6
      · intro hr
        rcases h7 hr with hc | ⟨hp, hif, hix⟩
        · exact Or.inl hc
        · exact absurd (hif ▸ hmem) (List.not_mem_nil u)
      · show s.dispatched.length = s.processed + 1 + (s.inFlight.erase u).length
        omega

/-- The run invariant holds in every reachable state of a run. -/
theorem runInv_reachable {us : List String} {n : Nat} {s : RunState}
    (h : Reaches (initRun us n) s) : RunInv us n s := by
  induction h with
  | refl => exact runInv_init us n
  | step _ hst ih => exact runInv_step ih hst

/-- C2: for every non-empty input handle list and every concurrency
limit at least 1, if cancellation is never triggered then after `Run`
returns the processed counter equals the total number of input
handles. -/
theorem run_complete_processes_all (us : List String) (n : Nat) (s : RunState)
    (hne : us ≠ []) (hn : 1 ≤ n) (hr : Reaches (initRun us n) s)
    (hret : s.returned = true) (hc : s.cancelled = false) :
    s.processed = us.length := by
  obtain ⟨h1, h2, h3, h4, h5, h6, h7, h8⟩ := runInv_reachable hr
  rcases h7 hret with hcc | ⟨hp, hif, hix⟩
  · exact absurd hcc (by simp [hc])
  · rw [hp, hif] at h4
    simp only [pendCount, List.length_nil] at h4
    omega

/-- C3: for every concurrency limit at least 1, at no point during a
run are more than that many units of work in flight executing
`checkUsername`, and the pool size (the `threads` field sizing the
semaphore) is fixed for the whole run. -/
theorem run_concurrency_cap (us : List String) (n : Nat) (s : RunState)
    (hn : 1 ≤ n) (hr : Reaches (initRun us n) s) :
    s.inFlight.length ≤ n ∧ s.threads = n :=
  ⟨(runInv_reachable hr).hcap, (runInv_reachable hr).hthreads⟩

/-- C7: the processed counter is monotonically non-decreasing (each
step leaves it unchanged or increments it by one) and in every
reachable state it never exceeds the total number of input handles. -/
theorem processed_monotone_bounded :
    (∀ s t : RunState, RunStep s t →
        s.processed ≤ t.processed ∧ t.processed ≤ s.processed + 1) ∧
    (∀ (us : List String) (n : Nat) (s : RunState),
        Reaches (initRun us n) s → s.processed ≤ us.length) := by
  refine ⟨?_, ?_⟩
  · intro s t hstep
    cases hstep with
    | cancel h => exact ⟨Nat.le_refl _, Nat.le_succ _⟩
    | selectStop h1 h2 h3 h4 => exact ⟨Nat.le_refl _, Nat.le_succ _⟩
    | selectDefault h1 h2 h3 h4 => exact ⟨Nat.le_refl _, Nat.le_succ _⟩
    | dispatch j u h1 h2 h3 h4 => exact ⟨Nat.le_refl _, Nat.le_succ _⟩
    | finish h1 h2 h3 h4 => exact ⟨Nat.le_refl _, Nat.le_succ _⟩
    | complete u resp h => exact ⟨Nat.le_succ _, Nat.le_refl _⟩
  · intro us n s hr
    have hi := runInv_reachable hr
    have hcnt := hi.hcount
    have hix := hi.hidx
    omega

/-- C5: in every reachable state the number of recorded result lines
equals the processed counter, every dispatched handle is accounted for
exactly once (still in flight or processed), and completing any
in-flight handle with any response records exactly one line and
increments the counter exactly once. -/
theorem one_result_per_dispatch (us : List String) (n : Nat) (s : RunState)
    (hr : Reaches (initRun us n) s) :
    s.results.length = s.processed ∧
    s.dispatched.length = s.processed + s.inFlight.length ∧
    ∀ (u : String) (resp : FetchResponse), u ∈ s.inFlight →
      ∃ t, RunStep s t ∧ t.results = s.results ++ [checkUsernameLine u resp] ∧
        t.processed = s.processed + 1 := by
  have hi := runInv_reachable hr
  refine ⟨hi.hresults, hi.hdisp, ?_⟩
  intro u resp hm
  exact ⟨_, RunStep.complete s u resp hm, rfl, rfl⟩

/-- C6: a failed network request is converted into exactly one
RequestError result line which is recorded and counted like any other
outcome in a single completion step, and it leaves every dispatcher
control field (index, pending commit, cancellation, return flag,
dispatch log) unchanged, so the failure never aborts the run and the
handle is never re-queued. -/
theorem request_error_recorded (s : RunState) (u e : String)
    (hm : u ∈ s.inFlight) :
    checkUsernameLine u (.reqError e) = renderLine (normalizeHandle u) (.requestError e) ∧
    ∃ t, RunStep s t ∧
      t.results = s.results ++ [renderLine (normalizeHandle u) (.requestError e)] ∧
      t.processed = s.processed + 1 ∧
      t.inFlight = s.inFlight.erase u ∧
      t.idx = s.idx ∧ t.pending = s.pending ∧ t.returned = s.returned ∧
      t.cancelled = s.cancelled ∧ t.dispatched = s.dispatched ∧
      t.usernames = s.usernames ∧ t.threads = s.threads :=
  ⟨rfl,
    ⟨_, RunStep.complete s u (.reqError e) hm,
      rfl, rfl, rfl, rfl, rfl, rfl, rfl, rfl, rfl, rfl⟩⟩

/-- C8: `GetProgress` is a pure snapshot: it leaves the state
unchanged, and calling it again without an intervening record or
increment returns the same value on the same state. -/
theorem getProgress_idempotent (s : RunState) :
    (GetProgress s).2 = s ∧
    (GetProgress ((GetProgress s).2)).1 = (GetProgress s).1 ∧
    (GetProgress ((GetProgress s).2)).2 = s :=
  ⟨rfl, rfl, rfl⟩

/-- C10: on an empty input list `GetProgress` performs the unguarded
division `0 / 0`, so in every reachable state of such a run it returns
the pair (0, 0) together with a NaN completion ratio. -/
theorem getProgress_empty_nan (n : Nat) (s : RunState)
    (hr : Reaches (initRun [] n) s) :
    (GetProgress s).1 = (0, 0, GoFloat.nan) := by
  have hi := runInv_reachable hr
  have hu : s.usernames = [] := hi.husers
  have hp : s.processed = 0 := by
    have hcnt := hi.hcount
    have hix := hi.hidx
    simp only [List.length_nil] at hix
    omega
  simp [GetProgress, hu, hp, goDiv, goMul]

/-- C4: the classification of `checkUsername` coincides with the
decision procedure the spec describes (`specClassify`): Free on exact
final-URL equality, decided before the body is consulted; ParseError on
a parse failure; NotFound when the status element is absent; and for a
present element the lower-cased trimmed text matched against exactly
the closed set of three literals, any other text giving UnknownStatus
carrying that text.  The closing conjuncts check the literal
classification table of the spec, the request-error row included, and
the capitalized display of a matched literal. -/
theorem classify_matches_spec :
    (∀ (handle finalURL : String) (body : HtmlBody),
        classify handle finalURL body = specClassify finalURL body handle) ∧
    (∀ (handle : String) (b1 b2 : HtmlBody),
        classify handle (queryURL handle) b1 = classify handle (queryURL handle) b2) ∧
    classify "alice" "https://fragment.com/?query=alice" (.page (some "anything")) = .free ∧
    classify "alice" (requestURL "alice") (.page (some "Taken")) = .taken ∧
    classify "alice" (requestURL "alice") (.page (some " weird ")) = .unknownStatus "weird" ∧
    classify "alice" (requestURL "alice") (.page none) = .notFound ∧
    checkUsernameLine "@alice" (.reqError "timeout") = "@alice | Error: timeout\n" ∧
    renderLine "alice" .taken = "@alice | Taken\n" := by
  refine ⟨?_, ?_, by decide, by decide, by decide, by decide, by decide, by decide⟩
  · intro handle finalURL body
    unfold classify specClassify
    by_cases hu : finalURL = queryURL handle
    · simp [hu]
    · cases body with
      | malformed e => simp [hu]
      | page st =>
          cases st with
          | none => simp [hu]
          | some raw =>
              simp only [hu, if_false, if_neg hu]
              by_cases h1 : goToLower (goTrimSpace raw) = "sold"
              · simp [h1, specStatusSet, specStatusOutcome]
              · by_cases h2 : goToLower (goTrimSpace raw) = "available"
                · simp [h1, h2, specStatusSet, specStatusOutcome]
                · by_cases h3 : goToLower (goTrimSpace raw) = "taken"
                  · simp [h1, h2, h3, specStatusSet, specStatusOutcome]
                  · simp [h1, h2, h3, specStatusSet, specStatusOutcome]
  · intro handle b1 b2
    simp [classify]

/-- C9: if the single configured proxy endpoint fails to parse, the
checker is still constructed, with the direct (non-proxied) client and
no error reported; and whatever the proxy list holds, the constructed
client depends only on its first element. -/
theorem proxy_parse_failure_direct_client
    (parseURL : String → Option String) (us : List String) (n : Nat)
    (p : String) (rest rest2 : List String) (out : String) :
    (parseURL p = none →
      (NewUsernameChecker parseURL us n (p :: rest) out).client =
        { timeoutSeconds := 10, transport := none }) ∧
    (NewUsernameChecker parseURL us n (p :: rest) out).client =
      (NewUsernameChecker parseURL us n (p :: rest2) out).client := by
  constructor
  · intro h
    simp [NewUsernameChecker, h]
  · cases hp : parseURL p <;> simp [NewUsernameChecker, hp]

/-- C1 counterexample: with input `["alice", "bob"]` and limit 1 there
is an execution in which `alice` is dispatched, cancellation is
observed at the iteration for `bob`, and `Run` returns while the unit
for `alice` is still in flight with no outcome recorded — refuting the
claim that `Run` does not return until every already-dispatched unit
has completed and been recorded. -/
theorem run_cancel_returns_with_inflight :
    ∃ s : RunState, Reaches (initRun ["alice", "bob"] 1) s ∧
      s.returned = true ∧ s.cancelled = true ∧
      s.inFlight = ["alice"] ∧ s.dispatched = [0] ∧
      s.results = [] ∧ s.processed = 0 := by
  refine ⟨_, Reaches.step (Reaches.step (Reaches.step (Reaches.step (Reaches.refl _)
      (RunStep.selectDefault (initRun ["alice", "bob"] 1) rfl rfl (by decide) rfl))
      (RunStep.dispatch _ 0 "alice" rfl rfl (by decide) (by decide)))
      (RunStep.cancel _ rfl))
      (RunStep.selectStop _ rfl rfl (by decide) rfl),
    by decide, by decide, by decide, by decide, by decide, by decide⟩

/-- C1 (amended): once the cancellation flag is set, the set of
dispatched handles can only grow by the single already-committed
(currently-iterating) index, never by any later handle; moreover every
outcome of a completed unit stays recorded (line count equals the
processed counter).  `Run` may, however, return while dispatched units
are still in flight, as the counterexample shows. -/
theorem run_cancel_truncates_dispatch (us : List String) (n : Nat)
    (s t : RunState) (hs : Reaches (initRun us n) s) (hc : s.cancelled = true)
    (ht : Reaches s t) :
    t.cancelled = true ∧
    (t.dispatched = s.dispatched ∧ t.pending = s.pending ∨
      ∃ j, s.pending = some j ∧ t.dispatched = s.dispatched ++ [j] ∧ t.pending = none) ∧
    t.results.length = t.processed := by
  have hres : t.results.length = t.processed :=
    (runInv_reachable (reaches_trans hs ht)).hresults
  have key : t.cancelled = true ∧
      (t.dispatched = s.dispatched ∧ t.pending = s.pending ∨
        ∃ j, s.pending = some j ∧ t.dispatched = s.dispatched ++ [j] ∧ t.pending = none) := by
    clear hres
    induction ht with
    | refl => exact ⟨hc, Or.inl ⟨rfl, rfl⟩⟩
    | step hr hst ih =>
        obtain ⟨ihc, ihd⟩ := ih
        cases hst with
        | cancel h => exact Bool.noConfusion (h.symm.trans ihc)
        | selectStop h1 h2 h3 h4 => exact ⟨ihc, ihd⟩
        | selectDefault h1 h2 h3 h4 => exact Bool.noConfusion (h4.symm.trans ihc)
        | dispatch j u h1 h2 h3 h4 =>
            rename_i x
            rcases ihd with ⟨hd, hp⟩ | ⟨j2, hjp, hd, hpn⟩
            · refine ⟨ihc, Or.inr ⟨j, ?_, ?_, rfl⟩⟩
              · rw [← hp]
                exact h2
              · show x.dispatched ++ [j] = s.dispatched ++ [j]
                rw [hd]
            · rw [hpn] at h2
              exact Option.noConfusion h2
        | finish h1 h2 h3 h4 => exact ⟨ihc, ihd⟩
        | complete u resp hmem => exact ⟨ihc, ihd⟩
  exact ⟨key.1, key.2, hres⟩

/-- Witness for C2: the one-handle run that dispatches `alice`,
completes it and finishes reaches a returned, uncancelled state whose
processed counter is the list length. -/
theorem run_complete_processes_all_witness :
    ∃ s : RunState, Reaches (initRun ["alice"] 1) s ∧ s.returned = true ∧
      s.cancelled = false ∧ s.processed = ["alice"].length := by
  have hr := Reaches.step (Reaches.step (Reaches.step (Reaches.step
      (Reaches.refl (initRun ["alice"] 1))
      (RunStep.selectDefault (initRun ["alice"] 1) rfl rfl (by decide) rfl))
      (RunStep.dispatch _ 0 "alice" rfl rfl (by decide) (by decide)))
      (RunStep.complete _ "alice" (.reqError "x") (by decide)))
      (RunStep.finish _ rfl rfl (by decide) (by decide))
  exact ⟨_, hr, by decide, by decide,
    run_complete_processes_all ["alice"] 1 _ (by decide) (by decide) hr (by decide) (by decide)⟩

/-- Witness for C3: the cap theorem applied to the initial state of a
one-handle run with limit 1. -/
theorem run_concurrency_cap_witness :
    (initRun ["alice"] 1).inFlight.length ≤ 1 ∧ (initRun ["alice"] 1).threads = 1 :=
  run_concurrency_cap ["alice"] 1 (initRun ["alice"] 1) (by decide) (Reaches.refl _)

/-- Witness for C5: after dispatching `alice` the accounting equations
hold and completing `alice` with a failing response appends exactly one
line and one increment. -/
theorem one_result_per_dispatch_witness :
    ∃ s : RunState, Reaches (initRun ["alice"] 1) s ∧
      s.results.length = s.processed ∧
      s.dispatched.length = s.processed + s.inFlight.length ∧
      ∃ t, RunStep s t ∧
        t.results = s.results ++ [checkUsernameLine "alice" (.reqError "x")] ∧
        t.processed = s.processed + 1 := by
  have hr := Reaches.step (Reaches.step (Reaches.refl (initRun ["alice"] 1))
      (RunStep.selectDefault (initRun ["alice"] 1) rfl rfl (by decide) rfl))
      (RunStep.dispatch _ 0 "alice" rfl rfl (by decide) (by decide))
  have h := one_result_per_dispatch ["alice"] 1 _ hr
  exact ⟨_, hr, h.1, h.2.1, h.2.2 "alice" (.reqError "x") (by decide)⟩

/-- Witness for C6: completing `bob` in a state where it is in flight,
with a refused connection, records and counts the failure. -/
theorem request_error_recorded_witness :
    ∃ t, RunStep ({ initRun ["bob"] 1 with inFlight := ["bob"] }) t ∧
      t.processed = ({ initRun ["bob"] 1 with inFlight := ["bob"] } : RunState).processed + 1 := by
  have h := request_error_recorded ({ initRun ["bob"] 1 with inFlight := ["bob"] })
      "bob" "refused" (by decide)
  obtain ⟨hline, t, hstep, hres, hproc, hrest⟩ := h
  exact ⟨t, hstep, hproc⟩

/-- Witness for C7: both parts of the monotonicity theorem applied to
the initial state of a one-handle run and its first step. -/
theorem processed_monotone_bounded_witness :
    (initRun ["alice"] 1).processed ≤ ["alice"].length ∧
    (initRun ["alice"] 1).processed ≤
      ({ initRun ["alice"] 1 with pending := some 0, idx := 1 } : RunState).processed :=
  ⟨processed_monotone_bounded.2 ["alice"] 1 _ (Reaches.refl _),
   (processed_monotone_bounded.1 _ _
      (RunStep.selectDefault (initRun ["alice"] 1) rfl rfl (by decide) rfl)).1⟩

/-- Witness for C9: a parser that always fails yields the direct
client, and two lists sharing their first proxy yield the same
client. -/
theorem proxy_parse_failure_direct_client_witness :
    (NewUsernameChecker (fun _ => none) [] 1 ["%%bad"] "out").client =
      { timeoutSeconds := 10, transport := none } ∧
    (NewUsernameChecker (fun s => some s) [] 1 ["http://p", "a"] "out").client =
      (NewUsernameChecker (fun s => some s) [] 1 ["http://p", "b"] "out").client :=
  ⟨(proxy_parse_failure_direct_client (fun _ => none) [] 1 "%%bad" [] [] "out").1 rfl,
   (proxy_parse_failure_direct_client (fun s => some s) [] 1 "http://p" ["a"] ["b"] "out").2⟩

/-- Witness for C10: the NaN result on the empty-list run, at its
initial state. -/
theorem getProgress_empty_nan_witness :
    (GetProgress (initRun [] 1)).1 = (0, 0, GoFloat.nan) :=
  getProgress_empty_nan 1 (initRun [] 1) (Reaches.refl _)

/-- Witness for the amended C1: applying the truncation theorem at the
state right after cancellation of a two-handle run. -/
theorem run_cancel_truncates_dispatch_witness :
    ∃ s : RunState, Reaches (initRun ["alice", "bob"] 1) s ∧ s.cancelled = true ∧
      s.results.length = s.processed := by
  have hr := Reaches.step (Reaches.refl (initRun ["alice", "bob"] 1))
      (RunStep.cancel (initRun ["alice", "bob"] 1) rfl)
  have h := run_cancel_truncates_dispatch ["alice", "bob"] 1 _ _ hr (by decide) (Reaches.refl _)
  exact ⟨_, hr, h.1, h.2.2⟩

